import Mathlib

/-!
Verification of the memory-hub retrieval-and-knowledge-graph engine.

This file gives a shallow embedding, in Lean 4, of the core algorithms of the
repository: the pattern/keyword fallback entity extractor and the spaCy-path
entity collection (`memhub/entity_extraction_service.py`), the per-user graph
construction and analytics (`memhub/graph_service.py`), the vector-similarity
retrieval loop (`memhub/rag_service.py`), the embedding degradation contract
(`memhub/embeddings.py`), and the ingestion pipeline of the
`save_conversation` tool (`server_http.py`).  Python machine floats are
modelled as exact rationals, database rows as Lean structures, the database
session as explicit state, and Python exceptions as `Option`/`Except`.
-/

namespace MemHub

/-! Section: Python string primitives

Models of the Python string operations used by the source: `str.lower`
(restricted to ASCII case folding, which is exact for every string handled by
this codebase), `str.strip`, `str.split()`, substring containment (`in`), and
the fragments of `re` semantics the extractor relies on (`\b` word boundaries,
case-insensitive literal search, the `[a-z_]+\([^\)]*\)` method pattern). -/

/-- Model of Python `str.lower` on one character (ASCII fold; identity on
CJK and all other characters appearing in this codebase). -/
def lowerChar (c : Char) : Char :=
  if 65 ≤ c.toNat ∧ c.toNat ≤ 90 then Char.ofNat (c.toNat + 32) else c

/-- Model of Python `str.lower`. -/
def lowerStr (s : String) : String := String.mk (s.data.map lowerChar)

/-- Model of Python regex `\w` (word character) restricted to the character
classes occurring in this codebase: ASCII alphanumerics, underscore, and the
CJK Unified Ideographs block used by the Chinese concept terms. -/
def isWordChar (c : Char) : Bool :=
  (48 ≤ c.toNat && c.toNat ≤ 57) || (65 ≤ c.toNat && c.toNat ≤ 90) ||
  (97 ≤ c.toNat && c.toNat ≤ 122) || c.toNat = 95 ||
  (0x4E00 ≤ c.toNat && c.toNat ≤ 0x9FFF)

/-- Word-character test on an optional character (`none` = outside the
string, which regex treats as a non-word position). -/
def isWordCharOpt : Option Char → Bool
  | none => false
  | some c => isWordChar c

/-- Regex `\b`: a word boundary lies between two (possibly absent) adjacent
characters iff exactly one of them is a word character. -/
def bdryOk (a b : Option Char) : Bool := isWordCharOpt a != isWordCharOpt b

/-- Case-insensitively match the literal pattern `kw` against an initial
segment of `t`; on success return the matched text characters and the rest. -/
def matchCI : List Char → List Char → Option (List Char × List Char)
  | [], t => some ([], t)
  | _ :: _, [] => none
  | k :: ks, c :: cs =>
    if lowerChar k = lowerChar c then
      match matchCI ks cs with
      | some (m, r) => some (c :: m, r)
      | none => none
    else none

/-- Does the pattern `\b kw \b` (with `re.IGNORECASE`) match at the current
position, whose preceding character is `prev` and remaining input is `t`? -/
def wbMatchAt (kw : List Char) (prev : Option Char) (t : List Char) : Bool :=
  match matchCI kw t with
  | some (m, r) => bdryOk prev t.head? && bdryOk m.getLast? r.head?
  | none => false

/-- Scan every position of the remaining input for a `\b kw \b` match. -/
def wordSearchFrom (kw : List Char) : Option Char → List Char → Bool
  | prev, [] => wbMatchAt kw prev []
  | prev, c :: cs => wbMatchAt kw prev (c :: cs) || wordSearchFrom kw (some c) cs

/-- Model of `re.search(r'\b' + re.escape(kw) + r'\b', text, re.IGNORECASE)`
returning whether a match exists. -/
def reWordSearchCI (kw text : String) : Bool := wordSearchFrom kw.data none text.data

/-- Does `pat` occur as a contiguous sublist starting at the head of `l`? -/
def startsWithList : List Char → List Char → Bool
  | [], _ => true
  | _ :: _, [] => false
  | a :: as, b :: bs => a = b && startsWithList as bs

/-- Model of Python `pat in text` (substring containment) on char lists. -/
def hasSubList (pat : List Char) : List Char → Bool
  | [] => startsWithList pat []
  | c :: cs => startsWithList pat (c :: cs) || hasSubList pat cs

/-- Model of Python `pat in text` on strings. -/
def pySubstr (pat text : String) : Bool := hasSubList pat.data text.data

/-- Case-insensitive substring containment, modelling SQL
`ilike '%pat%'` as used for traversal seed resolution. -/
def containsCI (pat text : String) : Bool :=
  hasSubList (lowerStr pat).data (lowerStr text).data

/-- Model of Python `str.strip` (drop leading and trailing whitespace). -/
def pyStrip (s : String) : String :=
  String.mk (((s.data.dropWhile Char.isWhitespace).reverse.dropWhile
    Char.isWhitespace).reverse)

/-- Python truthiness test `not text or not text.strip()`: true iff the text
is empty or consists of whitespace only. -/
def pyIsBlank (s : String) : Bool := s.data.all Char.isWhitespace

/-- One step of splitting a string into whitespace-separated words
(Python `str.split()` with no argument), folded from the right. -/
def wordsStep (c : Char) (p : List Char × List (List Char)) :
    List Char × List (List Char) :=
  if c.isWhitespace then
    ([], if p.1 = [] then p.2 else p.1 :: p.2)
  else (c :: p.1, p.2)

/-- Model of Python `str.split()` (split on whitespace runs, drop empties). -/
def pyWords (s : String) : List String :=
  let p := s.data.foldr wordsStep ([], [])
  (if p.1 = [] then p.2 else p.1 :: p.2).map String.mk

/-- Model of Python `range(a, b)` over naturals (empty when `b ≤ a`). -/
def pyRange (a b : Nat) : List Nat := (List.range (b - a)).map (a + ·)

/-! Section: Entity extraction (`memhub/entity_extraction_service.py`)

The extractor output schema: entity records `{type, name, description}` and
relationship records `{source_name, target_name, type, weight}`, referencing
entities by name. -/

/-- Extractor output entity record. -/
structure EntityRec where
  entity_type : String
  entity_name : String
  description : String
deriving DecidableEq, Repr

/-- Extractor output relationship record. -/
structure RelRec where
  source_entity_name : String
  target_entity_name : String
  relationship_type : String
  weight : ℚ
deriving DecidableEq, Repr

/-- The fixed list `tech_keywords` of `_extract_with_fallback`. -/
def techKeywords : List String :=
  ["Python", "Pandas", "NumPy", "Matplotlib", "Seaborn", "Scikit-learn",
   "TensorFlow", "PyTorch", "Django", "Flask", "FastAPI", "React", "Vue",
   "JavaScript", "TypeScript", "Java", "C++", "Go", "Rust", "SQL",
   "PostgreSQL", "MySQL", "MongoDB", "Redis", "Docker", "Kubernetes",
   "Git", "GitHub", "AWS", "Azure", "GCP", "Linux", "API", "REST",
   "GraphQL", "Machine Learning", "Deep Learning", "AI", "NLP", "CV"]

/-- The fixed list `chinese_tech_terms` of `_extract_with_fallback`. -/
def chineseTechTerms : List String :=
  ["数据分析", "机器学习", "深度学习", "人工智能", "数据库",
   "前端", "后端", "全栈", "开发", "编程", "算法", "架构",
   "微服务", "容器化", "云计算", "大数据", "数据挖掘"]

/-- State of one fallback extraction pass: the `entities` list built so far
and the key list of the `entity_map` dict (only key membership is consumed by
later phases, so the name-to-index dict is modelled by its key list). -/
structure ExtSt where
  entities : List EntityRec
  keys : List String
deriving Repr

/-- Fallback phase 1 step: one `tech_keywords` iteration.  A whole-word
case-insensitive hit becomes a `technology` entity unless its lowercase name
is already a key of `entity_map`. -/
def addTechEntity (text : String) (st : ExtSt) (kw : String) : ExtSt :=
  if reWordSearchCI kw text then
    if st.keys.contains (lowerStr kw) then st
    else
      { entities := st.entities ++
          [{ entity_type := "technology", entity_name := kw,
             description := "Technology/Tool: " ++ kw }],
        keys := st.keys ++ [lowerStr kw] }
  else st

/-- Fallback phase 2 step: one `chinese_tech_terms` iteration.  An exact
substring hit becomes a `concept` entity unless `term` is already a key. -/
def addChineseEntity (text : String) (st : ExtSt) (term : String) : ExtSt :=
  if pySubstr term text && !st.keys.contains term then
    { entities := st.entities ++
        [{ entity_type := "concept", entity_name := term,
           description := "概念: " ++ term }],
      keys := st.keys ++ [term] }
  else st

/-- Character class `[a-z_]` of the method-call regex. -/
def isMethodChar (c : Char) : Bool := (97 ≤ c.toNat && c.toNat ≤ 122) || c.toNat = 95

/-- Greedily take the maximal `[a-z_]+` run from the front of the input,
returning the run and the rest. -/
def takeRun : List Char → List Char × List Char
  | [] => ([], [])
  | c :: cs =>
    if isMethodChar c then
      let p := takeRun cs
      (c :: p.1, p.2)
    else ([], c :: cs)

/-- Consume `[^\)]*\)`: drop characters up to and including the first `)`,
returning the rest, or `none` when no `)` remains. -/
def dropToParen : List Char → Option (List Char)
  | [] => none
  | c :: cs => if c = ')' then some cs else dropToParen cs

/-- Scan for matches of `re.findall(r'\b([a-z_]+\([^\)]*\))', text)` and
return the identifier before the `(` of each match (the source computes it as
`method.split('(')[0]`).  `prev` is the character preceding the current
position (`none` at the start of the string).  `fuel` bounds the recursion;
every recursive call strictly shortens the remaining input, so the top-level
call, whose fuel is `length + 1`, never runs out. -/
def findMethodsGo : Nat → Option Char → List Char → List String
  | 0, _, _ => []
  | _ + 1, _, [] => []
  | fuel + 1, prev, c :: cs =>
    if !isWordCharOpt prev && isMethodChar c then
      let pr := takeRun (c :: cs)
      match pr.2 with
      | '(' :: rest2 =>
        match dropToParen rest2 with
        | some rest3 => String.mk pr.1 :: findMethodsGo fuel (some ')') rest3
        | none => []
      | d :: rest => findMethodsGo fuel (some (pr.1.getLastD '_')) (d :: rest)
      | [] => []
    else findMethodsGo fuel (some c) cs

/-- All identifiers matched by the method-call pattern in `text`. -/
def findMethods (text : String) : List String :=
  findMethodsGo (text.data.length + 1) none text.data

/-- Fallback phase 3 step: one extracted method identifier.  A non-empty
identifier becomes a `method` entity unless it is already a key. -/
def addMethodEntity (st : ExtSt) (nm : String) : ExtSt :=
  if nm ≠ "" && !st.keys.contains nm then
    { entities := st.entities ++
        [{ entity_type := "method", entity_name := nm,
           description := "Method/Function: " ++ nm }],
      keys := st.keys ++ [nm] }
  else st

/-- The complete entity pass of `_extract_with_fallback`: technology
keywords, then Chinese concept terms, then method identifiers. -/
def fallbackEntityPass (text : String) : ExtSt :=
  (findMethods text).foldl addMethodEntity
    (chineseTechTerms.foldl (addChineseEntity text)
      (techKeywords.foldl (addTechEntity text) ⟨[], []⟩))

/-- Sliding-window relationship generation of `_extract_with_fallback`:
`for i in range(len(entities) - 1): for j in range(i + 1, min(i + 3,
len(entities)))`, each pair typed `mentioned_with` with weight 1.0. -/
def fallbackRels (entities : List EntityRec) : List RelRec :=
  (pyRange 0 (entities.length - 1)).flatMap (fun i =>
    (pyRange (i + 1) (min (i + 3) entities.length)).map (fun j =>
      { source_entity_name := (entities.getD i ⟨"", "", ""⟩).entity_name,
        target_entity_name := (entities.getD j ⟨"", "", ""⟩).entity_name,
        relationship_type := "mentioned_with",
        weight := 1 }))

/-- Model of `EntityExtractionService._extract_with_fallback` (the `role`
argument is accepted but unused by the source, as here). -/
def extract_with_fallback (text : String) (_role : String)
    (extract_relationships : Bool) : List EntityRec × List RelRec :=
  let entities := (fallbackEntityPass text).entities
  let relationships :=
    if extract_relationships && 1 < entities.length then fallbackRels entities
    else []
  (entities, relationships)

/-! Section: The spaCy extraction path (`_extract_with_spacy`)

The linguistic analysis itself is an external capability; its result is
modelled as a document carrying the named-entity spans (`doc.ents`, each with
a label and a text) and the noun-chunk texts (`doc.noun_chunks`) that the
source iterates over.  Only the entity-collection part is embedded here —
relationship extraction from the dependency parse is not needed by any
claim. -/

/-- A named-entity span of the external linguistic analysis. -/
structure SpacyEnt where
  label : String
  text : String
deriving DecidableEq, Repr

/-- The part of a spaCy document consumed by the entity collection. -/
structure SpacyDoc where
  ents : List SpacyEnt
  noun_chunks : List String
deriving DecidableEq, Repr

/-- Model of `EntityExtractionService._map_spacy_entity_type`. -/
def map_spacy_entity_type (l : String) : String :=
  if l = "PERSON" then "person"
  else if l = "ORG" then "organization"
  else if l = "GPE" then "location"
  else if l = "LOC" then "location"
  else if l = "PRODUCT" then "product"
  else if l = "EVENT" then "event"
  else if l = "WORK_OF_ART" then "work"
  else if l = "LAW" then "law"
  else if l = "LANGUAGE" then "language"
  else if l = "DATE" then "date"
  else if l = "TIME" then "time"
  else if l = "PERCENT" then "metric"
  else if l = "MONEY" then "metric"
  else if l = "QUANTITY" then "metric"
  else if l = "ORDINAL" then "metric"
  else if l = "CARDINAL" then "metric"
  else "concept"

/-- Named-entity step of `_extract_with_spacy`: every span whose stripped
text is non-empty and longer than one character is appended (with no
membership check), and its lowercase name is recorded in `entity_map`. -/
def addSpacyEnt (role : String) (st : ExtSt) (ent : SpacyEnt) : ExtSt :=
  let entity_type := map_spacy_entity_type ent.label
  let entity_name := pyStrip ent.text
  if entity_name ≠ "" && 1 < entity_name.length then
    { entities := st.entities ++
        [{ entity_type := entity_type, entity_name := entity_name,
           description := entity_type ++ ": " ++ entity_name ++
             " (mentioned in " ++ role ++ " message)" }],
      keys := st.keys ++ [lowerStr entity_name] }
  else st

/-- Noun-chunk step of `_extract_with_spacy`: a stripped chunk becomes a
`concept` entity when its lowercase form is not yet a key of `entity_map`,
it is longer than two characters, and it has at most four words. -/
def addSpacyChunk (st : ExtSt) (chunk : String) : ExtSt :=
  let chunk_text := pyStrip chunk
  if !st.keys.contains (lowerStr chunk_text) && 2 < chunk_text.length &&
      (pyWords chunk_text).length ≤ 4 then
    { entities := st.entities ++
        [{ entity_type := "concept", entity_name := chunk_text,
           description := "Concept: " ++ chunk_text }],
      keys := st.keys ++ [lowerStr chunk_text] }
  else st

/-- The entity list produced by `_extract_with_spacy` (identical whether or
not relationships are requested). -/
def spacyEntities (doc : SpacyDoc) (role : String) : List EntityRec :=
  (doc.noun_chunks.foldl addSpacyChunk
    (doc.ents.foldl (addSpacyEnt role) ⟨[], []⟩)).entities

/-! Section: Stable sorting

Python `list.sort(key=...)` is a stable ascending sort.  It is modelled by a
stable insertion sort parameterized by a boolean "key less-or-equal"
comparison: an element is inserted after every already-placed element whose
key is less than or equal to its own, which preserves the original order of
key-equal elements exactly as Cthe stable sort of Python does. -/

/-- Insert `x` after all elements `y` with `le y x`. -/
def insertLE (le : α → α → Bool) (x : α) : List α → List α
  | [] => [x]
  | y :: ys => if le y x then y :: insertLE le x ys else x :: y :: ys

/-- Stable ascending sort by the comparison `le`. -/
def sortLE (le : α → α → Bool) (l : List α) : List α :=
  l.foldl (fun acc x => insertLE le x acc) []

/-! Section: Database rows and the per-user knowledge graph
(`memhub/database.py`, `memhub/graph_service.py`)

`build_user_graph` is modelled as a function of the entity rows owned by the
user (the result of the `Entity` join on `Conversation.user_id`) and the
global relationship rows.  NetworkX `DiGraph` semantics are reproduced:
adding an existing node or edge keeps its position and overwrites its
attributes, and node/edge iteration follows first-insertion order. -/

/-- An `Entity` table row (the columns the graph service reads). -/
structure EntityRow where
  id : Nat
  conversation_id : Nat
  entity_type : String
  entity_name : String
  description : String
  embedding : List ℚ
deriving DecidableEq, Repr

/-- A `Relationship` table row. -/
structure RelRow where
  source_entity_id : Nat
  target_entity_id : Nat
  relationship_type : String
  weight : ℚ
deriving DecidableEq, Repr

/-- A node of the NetworkX graph with its attribute dict. -/
structure GNode where
  id : Nat
  name : String
  etype : String
  descr : String
deriving DecidableEq, Repr

/-- An edge of the NetworkX graph with its attribute dict. -/
structure GEdge where
  src : Nat
  tgt : Nat
  rtype : String
  weight : ℚ
deriving DecidableEq, Repr

/-- The ephemeral directed graph. -/
structure Gph where
  nodes : List GNode
  edges : List GEdge
deriving DecidableEq, Repr

/-- NetworkX `add_node`: re-adding a node id keeps its position and
overwrites its attributes. -/
def upsertNode (ns : List GNode) (n : GNode) : List GNode :=
  if ns.any (fun x => x.id = n.id) then
    ns.map (fun x => if x.id = n.id then n else x)
  else ns ++ [n]

/-- NetworkX `add_edge` on a `DiGraph`: re-adding a `(src, tgt)` pair keeps
its position and overwrites its attributes. -/
def upsertEdge (es : List GEdge) (e : GEdge) : List GEdge :=
  if es.any (fun x => x.src = e.src && x.tgt = e.tgt) then
    es.map (fun x => if x.src = e.src && x.tgt = e.tgt then e else x)
  else es ++ [e]

/-- Model of `GraphService.build_user_graph`: nodes are the entities of the user;
edges are the relationships whose two endpoint ids both belong to the user's
entity id set. -/
def build_user_graph (entities : List EntityRow) (rels : List RelRow) : Gph :=
  let entity_ids := entities.map (·.id)
  let rels2 := rels.filter (fun r =>
    entity_ids.contains r.source_entity_id && entity_ids.contains r.target_entity_id)
  { nodes := entities.foldl (fun ns e =>
      upsertNode ns ⟨e.id, e.entity_name, e.entity_type, e.description⟩) [],
    edges := rels2.foldl (fun es r =>
      upsertEdge es ⟨r.source_entity_id, r.target_entity_id,
        r.relationship_type, r.weight⟩) [] }

/-- NetworkX `G.successors(n)` in adjacency insertion order (edge pairs are
unique by construction, so no further deduplication is needed). -/
def successorsOf (g : Gph) (n : Nat) : List Nat :=
  (g.edges.filter (fun e => e.src = n)).map (·.tgt)

/-- NetworkX `G.get_edge_data(u, v)`. -/
def edgeData (g : Gph) (u v : Nat) : Option GEdge :=
  g.edges.find? (fun e => e.src = u && e.tgt = v)

/-- Attribute lookup `G.nodes[n]`. -/
def nodeData (g : Gph) (n : Nat) : Option GNode :=
  g.nodes.find? (fun x => x.id = n)

/-! Section: Graph traversal (`GraphService.get_related_entities`) -/

/-- One result entry of the traversal, mirroring the emitted dict
(`.get` lookups on attribute dicts yield `Option`s). -/
structure REntry where
  entity_id : Nat
  entity_name : Option String
  entity_type : Option String
  relationship_type : Option String
  weight : ℚ
  depth : Nat
  path : List Nat
deriving DecidableEq, Repr

/-- The two mutable variables shared across the whole traversal. -/
structure TravSt where
  visited : List Nat
  related : List REntry
deriving DecidableEq, Repr

/-- The entry appended for the successor `nb` of `node` discovered at
`depth + 1` (weight defaults to 1.0 when absent, as in the source). -/
def mkREntry (g : Gph) (node nb depth : Nat) (path : List Nat) : REntry :=
  { entity_id := nb
    entity_name := (nodeData g nb).map (·.name)
    entity_type := (nodeData g nb).map (·.etype)
    relationship_type := (edgeData g node nb).map (·.rtype)
    weight := ((edgeData g node nb).map (·.weight)).getD 1
    depth := depth + 1
    path := path ++ [nb] }

/-- The `for neighbor in G.successors(node_id)` loop of the nested `dfs`
function: an unvisited neighbor is emitted at `depth + 1` and expanded via
the continuation `rec` (the recursive `dfs` call) only while the result
count is still below `limit`. -/
def dfsLoop (g : Gph) (limit : Nat)
    (rec : Nat → Nat → List Nat → TravSt → TravSt) :
    List Nat → Nat → Nat → List Nat → TravSt → TravSt
  | [], _, _, _, st => st
  | nb :: rest, node, depth, path, st =>
    let st1 :=
      if st.visited.contains nb then st
      else
        let st' := { st with related := st.related ++ [mkREntry g node nb depth path] }
        if st'.related.length < limit then rec nb (depth + 1) (path ++ [nb]) st'
        else st'
    dfsLoop g limit rec rest node depth path st1

/-- The body of the nested `dfs` function of `get_related_entities`:
guard on `depth > max_depth or node_id in visited`, mark visited, then
iterate over the successors.  `fuel` bounds the recursion depth; the top
call supplies more fuel than the graph has nodes and each nested call adds
one graph node to the visited set, so the fuel never runs out. -/
def dfsVisit (g : Gph) (maxDepth limit : Nat) :
    Nat → Nat → Nat → List Nat → TravSt → TravSt
  | 0, _, _, _, st => st
  | fuel + 1, node, depth, path, st =>
    if maxDepth < depth || st.visited.contains node then st
    else
      dfsLoop g limit (dfsVisit g maxDepth limit fuel) (successorsOf g node)
        node depth path { st with visited := st.visited ++ [node] }

/-- Model of `GraphService.get_related_entities`: resolve the seed entity by
case-insensitive substring match (SQL `ilike '%name%'`, first row), build
the user graph, run the depth-first traversal from the seed at depth 0, then
stably sort by `(-weight, depth)` and truncate to `limit`. -/
def get_related_entities (entities : List EntityRow) (rels : List RelRow)
    (entity_name : String) (max_depth limit : Nat) : List REntry :=
  match entities.find? (fun e => containsCI entity_name e.entity_name) with
  | none => []
  | some ent =>
    let g := build_user_graph entities rels
    if (g.nodes.map (·.id)).contains ent.id then
      let st := dfsVisit g max_depth limit (g.nodes.length + 1) ent.id 0 [ent.id]
        ⟨[], []⟩
      (sortLE (fun a b => (b.weight < a.weight) ||
        (a.weight = b.weight && a.depth ≤ b.depth)) st.related).take limit
    else []

/-! Section: Importance ranking (`GraphService.get_entity_importance`)

`nx.pagerank` is an external computation wrapped in `try/except`; it is
modelled by an `Option`-valued parameter (`none` = the call raised, in which
case the source substitutes the uniform distribution).  The weighted degree
is `G.degree(node, weight="weight")` = sum of incident edge weights.  Python
raises `ZeroDivisionError` on division by zero, so the result type is an
`Option`: `none` models that exception escaping the method. -/

/-- One importance result entry. -/
structure IScore where
  entity_id : Nat
  entity_name : String
  entity_type : String
  pagerank : ℚ
  degree : ℚ
  importance : ℚ
deriving DecidableEq, Repr

/-- Weighted total degree `G.degree(n, weight="weight")` on a `DiGraph`:
the sum of the weights of the edges entering or leaving `n`. -/
def degreeW (g : Gph) (n : Nat) : ℚ :=
  ((g.edges.filter (fun e => e.src = n)).map (·.weight)).sum +
  ((g.edges.filter (fun e => e.tgt = n)).map (·.weight)).sum

/-- Python `max` on a list (only applied to non-empty lists by the source). -/
def maxQ : List ℚ → ℚ
  | [] => 0
  | x :: xs => xs.foldl max x

/-- Model of `GraphService.get_entity_importance`.  `pr` is the outcome of
`nx.pagerank` (`none` when it raised, triggering the uniform fallback).
The result is `none` exactly when the degree normalization divides by zero —
`max(degree_centrality.values() or [1])` evaluates to `0` whenever the graph
is non-empty with all degrees zero, because a non-empty all-zero values list
is truthy, and the division then raises `ZeroDivisionError`. -/
def get_entity_importance (g : Gph) (pr : Option (Nat → ℚ)) (limit : Nat) :
    Option (List IScore) :=
  if g.nodes.length = 0 then some []
  else
    let pagerank : Nat → ℚ :=
      match pr with
      | some f => f
      | none => fun _ => 1 / (g.nodes.length : ℚ)
    let degs := g.nodes.map (fun nd => degreeW g nd.id)
    let maxdeg := maxQ (if degs.isEmpty then [1] else degs)
    if maxdeg = 0 then none
    else
      let scores := g.nodes.map (fun nd =>
        { entity_id := nd.id, entity_name := nd.name, entity_type := nd.etype,
          pagerank := pagerank nd.id, degree := degreeW g nd.id,
          importance := pagerank nd.id * (6 / 10) +
            (degreeW g nd.id / maxdeg) * (4 / 10) : IScore })
      some ((sortLE (fun a b => b.importance ≤ a.importance) scores).take limit)

/-! Section: Topic clustering (`GraphService.get_topic_clusters`)

Community detection (Louvain when importable, otherwise connected components
of the undirected view) is an external computation producing a dict mapping
every node of the graph to a community id; it is modelled by the function
parameter `comm`.  Grouping, size filtering, labeling and sorting are the
own logic of the source.  Python `max(set(types), key=types.count)` iterates a
set in unspecified order; the model resolves count ties to the first
distinct type in list order. -/

/-- One entity member of a cluster. -/
structure ClusterEnt where
  entity_id : Nat
  entity_name : String
  entity_type : String
deriving DecidableEq, Repr

/-- One topic cluster. -/
structure Cluster where
  cluster_id : Nat
  cluster_label : String
  size : Nat
  entities : List ClusterEnt
deriving DecidableEq, Repr

/-- Deduplicate keeping first occurrences (dict key order for
`defaultdict` grouping). -/
def firstDedup [DecidableEq α] (l : List α) : List α :=
  l.foldl (fun acc x => if acc.contains x then acc else acc ++ [x]) []

/-- Number of occurrences of `s` in `l` (Python `list.count`). -/
def countOcc (l : List String) (s : String) : Nat := (l.filter (· = s)).length

/-- Python `max(set(types), key=types.count) if types else "unknown"`,
with count ties resolved to the earliest distinct type. -/
def mostCommonType (types : List String) : String :=
  match firstDedup types with
  | [] => "unknown"
  | d :: ds => ds.foldl (fun best t =>
      if countOcc types best < countOcc types t then t else best) d

/-- Model of `GraphService.get_topic_clusters`.  `comm` is the community
assignment over node ids produced by Louvain or the connected-components
fallback (a total map over the nodes of the graph in either case). -/
def get_topic_clusters (g : Gph) (min_cluster_size : Nat) (comm : Nat → Nat) :
    List Cluster :=
  if g.nodes.length < min_cluster_size then []
  else
    let ids := firstDedup (g.nodes.map (fun nd => comm nd.id))
    let groups := ids.map (fun c => (c, g.nodes.filter (fun nd => comm nd.id = c)))
    let surviving := groups.filter (fun p => min_cluster_size ≤ p.2.length)
    let clusters := surviving.map (fun p =>
      { cluster_id := p.1
        cluster_label := mostCommonType (p.2.map (·.etype))
        size := p.2.length
        entities := p.2.map (fun nd => ⟨nd.id, nd.name, nd.etype⟩) : Cluster })
    sortLE (fun a b => b.size ≤ a.size) clusters

/-! Section: Vector similarity retrieval (`RAGService.search_conversations`)

The store computes, per row, the value `1 - cosine_distance(embedding,
query_embedding)`; that per-row similarity operator is the parameter `sim`.
The owner/session/platform/recency filters are conjoined into the predicate
`pred`.  The engine sorts descending by similarity, over-fetches `2 × limit`
rows, then filters client-side by the threshold, stopping as soon as `limit`
qualifying rows are collected. -/

/-- A `Conversation` row as seen by the retrieval engine. -/
structure CRow where
  id : Nat
  session_id : String
  role : String
  content : String
  platform : String
deriving DecidableEq, Repr

/-- The client-side collection loop over the fetched candidates: keep a row
iff its similarity meets the threshold, and break out of the loop once
`limit` rows have been collected. -/
def collectLoop (threshold : ℚ) (limit : Nat) :
    List (CRow × ℚ) → List (CRow × ℚ) → List (CRow × ℚ)
  | [], acc => acc
  | r :: rest, acc =>
    if threshold ≤ r.2 then
      let acc2 := acc ++ [r]
      if limit ≤ acc2.length then acc2
      else collectLoop threshold limit rest acc2
    else collectLoop threshold limit rest acc

/-- The candidate list fetched by the similarity query: the filtered rows
paired with their similarity, ordered by similarity descending, truncated to
`2 × limit` (`.limit(limit * 2)`). -/
def fetchCandidates (rows : List CRow) (pred : CRow → Bool) (sim : CRow → ℚ)
    (limit : Nat) : List (CRow × ℚ) :=
  ((sortLE (fun a b => (b : CRow × ℚ).2 ≤ a.2)
    ((rows.filter pred).map (fun r => (r, sim r)))).take (limit * 2))

/-- Model of `RAGService.search_conversations`. -/
def search_conversations (rows : List CRow) (pred : CRow → Bool)
    (sim : CRow → ℚ) (limit : Nat) (similarity_threshold : ℚ) :
    List (CRow × ℚ) :=
  collectLoop similarity_threshold limit (fetchCandidates rows pred sim limit) []

/-! Section: Embedding degradation contract (`memhub/embeddings.py`)

`SentenceTransformer.encode` is the external model; it is represented by a
function returning `Option` (`none` = the call raised, caught by the
`except` handler of the source, which degrades to the zero vector).  Cosine similarity is
guarded by the zero-norm check; `‖v‖ = 0` iff `‖v‖² = 0`, so the guard is
expressed on the (rational-exact) squared norm and the result lives in `ℝ`
only because of the square root in the general branch. -/

/-- Squared Euclidean norm of a vector. -/
def normSq (v : List ℚ) : ℚ := (v.map (fun x => x * x)).sum

/-- Dot product of two vectors (`np.dot` truncates at the shorter list only
in the model; the source always passes equal-dimension vectors). -/
def dotQ : List ℚ → List ℚ → ℚ
  | x :: xs, y :: ys => x * y + dotQ xs ys
  | _, _ => 0

/-- All-zero vector test. -/
def isZeroVec (v : List ℚ) : Bool := v.all (· = 0)

/-- Model of `EmbeddingService.get_embedding`: blank input or a raising
encoder both degrade to the zero vector of dimension `D`
(`settings.embedding_dimensions`). -/
def get_embedding (D : Nat) (encode : String → Option (List ℚ)) (text : String) :
    List ℚ :=
  if pyIsBlank text then List.replicate D 0
  else
    match encode text with
    | some v => v
    | none => List.replicate D 0

/-- Model of `EmbeddingService.cosine_similarity`: return 0.0 when either
norm is zero, otherwise the usual quotient. -/
noncomputable def cosine_similarity (v1 v2 : List ℚ) : ℝ :=
  if normSq v1 = 0 ∨ normSq v2 = 0 then 0
  else (dotQ v1 v2 : ℝ) / (Real.sqrt (normSq v1) * Real.sqrt (normSq v2))

/-! Section: Ingestion (`server_http.py`, `save_conversation` branch)

The database session is explicit state; SQLAlchemy id sequences are the
`convSeq`/`entSeq` counters; `db.flush` making `entity.id` available before
commit corresponds to assigning ids in the entity fold.  The whole
extraction-plus-write phase runs inside one `try`: any exception there is
the `Except.error` case, which leaves the already-committed conversation in
place, discards the uncommitted entity/relationship writes (the session is
closed without a commit), and reports partial success. -/

/-- The caller-supplied fields of `SaveConversationInput`. -/
structure ConvInput where
  user_id : String
  session_id : String
  role : String
  content : String
  platform : String
deriving DecidableEq, Repr

/-- A committed `Conversation` row. -/
structure ConvRow where
  id : Nat
  user_id : String
  session_id : String
  role : String
  content : String
  platform : String
  embedding : List ℚ
deriving DecidableEq, Repr

/-- The persistent store state. -/
structure DB where
  conversations : List ConvRow
  entities : List EntityRow
  relationships : List RelRow
  convSeq : Nat
  entSeq : Nat
deriving DecidableEq, Repr

/-- The JSON result object of the `save_conversation` tool. -/
structure SaveResult where
  success : Bool
  conversation_id : Nat
  message : String
  entities_extracted : Nat
  relationships_extracted : Nat
  extraction_error : Option String
deriving DecidableEq, Repr

/-- Dict lookup in `entity_id_map`, where a later assignment to the same
name wins. -/
def lookupLast (m : List (String × Nat)) (k : String) : Option Nat :=
  (m.reverse.find? (fun p => p.1 = k)).map (·.2)

/-- One entity write of the ingestion loop: insert the row, flush to obtain
its id, and record `entity_id_map[name] = id`. -/
def entityWriteStep (emb : String → List ℚ) (cid : Nat)
    (p : DB × List (String × Nat)) (ed : EntityRec) : DB × List (String × Nat) :=
  let eid := p.1.entSeq
  let row : EntityRow :=
    { id := eid, conversation_id := cid, entity_type := ed.entity_type,
      entity_name := ed.entity_name, description := ed.description,
      embedding := emb ed.description }
  ({ p.1 with entities := p.1.entities ++ [row], entSeq := eid + 1 },
   p.2 ++ [(ed.entity_name, eid)])

/-- One relationship write of the ingestion loop: create the row only when
both endpoint names were saved in this call; count the saved rows. -/
def relWriteStep (emap : List (String × Nat)) (q : DB × Nat) (rd : RelRec) :
    DB × Nat :=
  match lookupLast emap rd.source_entity_name,
        lookupLast emap rd.target_entity_name with
  | some sid, some tid =>
    ({ q.1 with relationships := q.1.relationships ++
        [{ source_entity_id := sid, target_entity_id := tid,
           relationship_type := rd.relationship_type, weight := rd.weight }] },
     q.2 + 1)
  | _, _ => q

/-- Model of the `save_conversation` branch of `call_tool`: commit the
conversation row first, then run extraction and the entity/relationship
write phase; `extracted` is the outcome of that `try` block (`Except.error`
= some exception was raised inside it). -/
def save_conversation (db : DB) (inp : ConvInput) (emb : String → List ℚ)
    (extracted : Except String (List EntityRec × List RelRec)) :
    DB × SaveResult :=
  let cid := db.convSeq
  let conv : ConvRow :=
    { id := cid, user_id := inp.user_id, session_id := inp.session_id,
      role := inp.role, content := inp.content, platform := inp.platform,
      embedding := emb inp.content }
  let db1 := { db with
    conversations := db.conversations ++ [conv]
    convSeq := cid + 1 }
  match extracted with
  | .error e =>
    (db1, { success := true, conversation_id := cid,
            message := "Conversation saved successfully (entity extraction failed)",
            entities_extracted := 0, relationships_extracted := 0,
            extraction_error := some e })
  | .ok (entities_data, relationships_data) =>
    let p := entities_data.foldl (entityWriteStep emb cid) (db1, [])
    let q := relationships_data.foldl (relWriteStep p.2) (p.1, 0)
    (q.1, { success := true, conversation_id := cid,
            message := "Conversation saved successfully",
            entities_extracted := entities_data.length,
            relationships_extracted := q.2,
            extraction_error := none })

/-! Section: Claim C1 and Claim C2: traversal bounds

Both properties fail on the source.  The `dfs` guard `depth > max_depth`
is evaluated at node entry, but successors are emitted at `depth + 1`
before any check, so a call entered at `depth = max_depth` still emits
entries at depth `max_depth + 1`.  Separately, a node is added to the
visited set only when `dfs` is entered on it; when the `len(related) <
limit` check suppresses that recursive call, the emitted node stays
unvisited and can be emitted again from another parent whose loop is
already running. -/

/-- C1: on the graph A→B (weight 1), B→D (weight 5), A→D (weight 5) with
`limit = 2`, the traversal emits entity 3 (D) twice — once via B at depth 2
(after which the limit suppresses the recursive call that would have marked
D visited) and once directly from A at depth 1 — and after the
`(-weight, depth)` sort both copies survive truncation, refuting "never
emits the same node twice within one traversal call". -/
theorem related_entities_emits_duplicate_node :
    ((get_related_entities
        [⟨1, 1, "concept", "A", "A", []⟩, ⟨2, 1, "concept", "B", "B", []⟩,
         ⟨3, 1, "concept", "D", "D", []⟩]
        [⟨1, 2, "r", 1⟩, ⟨2, 3, "r", 5⟩, ⟨1, 3, "r", 5⟩]
        "A" 2 2).map (fun e => (e.entity_id, e.depth))) = [(3, 1), (3, 2)] := by
  decide

/-- C2: on the chain A→B→C (all weights 1.0), `get_related_entities` with
seed "A" and `max_depth = 1` returns B at depth 1 AND C at depth 2 — not
"exactly the single entry B at depth 1" — because the `depth > max_depth`
guard only stops expansion one level too late.  The `max_depth = 2` half of
the claim does hold: [B, C] with C at depth 2. -/
theorem related_entities_max_depth_one_also_returns_C :
    ((get_related_entities
        [⟨1, 1, "concept", "A", "A", []⟩, ⟨2, 1, "concept", "B", "B", []⟩,
         ⟨3, 1, "concept", "C", "C", []⟩]
        [⟨1, 2, "related_to", 1⟩, ⟨2, 3, "related_to", 1⟩]
        "A" 1 20).map (fun e => (e.entity_id, e.depth))) = [(2, 1), (3, 2)] ∧
    ((get_related_entities
        [⟨1, 1, "concept", "A", "A", []⟩, ⟨2, 1, "concept", "B", "B", []⟩,
         ⟨3, 1, "concept", "C", "C", []⟩]
        [⟨1, 2, "related_to", 1⟩, ⟨2, 3, "related_to", 1⟩]
        "A" 2 20).map (fun e => (e.entity_id, e.depth))) = [(2, 1), (3, 2)] := by
  constructor
  · decide
  · decide

/-! Section: Claim C5: case-insensitive name deduplication

The fallback strategy maintains the `entity_map` invariant — its key list is
exactly the list of lowercased names of the emitted entities, without
duplicates — across all three phases, so its output never repeats a
case-insensitive name.  The spaCy strategy does not: named-entity spans are
appended with no membership check, so a repeated span duplicates. -/

theorem foldl_preserves {α β : Type} {P : β → Prop} (f : β → α → β)
    (l : List α) (st : β) (h : P st) (hf : ∀ st a, a ∈ l → P st → P (f st a)) :
    P (l.foldl f st) := by
  induction l generalizing st with
  | nil => simpa using h
  | cons a as ih =>
    exact ih (f st a) (hf st a (by simp) h)
      (fun st' a' ha' => hf st' a' (by simp [ha']))

theorem lowerChar_of_methodChar {c : Char} (h : isMethodChar c = true) :
    lowerChar c = c := by
  simp only [isMethodChar, Bool.or_eq_true, Bool.and_eq_true, decide_eq_true_eq] at h
  rw [lowerChar, if_neg (by omega)]

theorem lowerStr_of_methodChars {l : List Char}
    (h : ∀ c ∈ l, isMethodChar c = true) : lowerStr (String.mk l) = String.mk l := by
  simp only [lowerStr]
  congr 1
  induction l with
  | nil => simp
  | cons c cs ih =>
    simp only [List.map_cons, List.cons.injEq]
    exact ⟨lowerChar_of_methodChar (h c (by simp)),
      ih (fun c' hc' => h c' (by simp [hc']))⟩

theorem takeRun_fst_chars : ∀ (l : List Char), ∀ c ∈ (takeRun l).1, isMethodChar c = true := by
  intro l
  induction l with
  | nil => simp [takeRun]
  | cons c cs ih =>
    by_cases h : isMethodChar c
    · simp only [takeRun, h, if_pos]
      intro d hd
      rcases List.mem_cons.mp hd with h1 | h1
      · exact h1 ▸ h
      · exact ih d h1
    · simp [takeRun, h]

theorem findMethodsGo_chars :
    ∀ (fuel : Nat) (p : Option Char) (t : List Char), ∀ nm ∈ findMethodsGo fuel p t,
      ∀ c ∈ nm.data, isMethodChar c = true := by
  intro fuel
  induction fuel with
  | zero => intro p t; simp [findMethodsGo]
  | succ fuel ih =>
    intro p t
    match t with
    | [] => simp [findMethodsGo]
    | c :: cs =>
      intro nm' hnm' d hd
      rw [findMethodsGo] at hnm'
      by_cases h : (!isWordCharOpt p && isMethodChar c) = true
      · simp only [h, if_pos] at hnm'
        split at hnm'
        · rcases hnm' with hnm'
          split at hnm'
          · rcases List.mem_cons.mp hnm' with h1 | h1
            · subst h1
              exact takeRun_fst_chars (c :: cs) d hd
            · exact ih _ _ nm' h1 d hd
          · exact absurd hnm' (List.not_mem_nil nm')
        · exact ih _ _ nm' hnm' d hd
        · exact absurd hnm' (List.not_mem_nil nm')
      · simp only [h, if_neg, Bool.false_eq_true, not_false_iff] at hnm'
        exact ih _ _ nm' hnm' d hd

theorem chineseTechTerms_lower_fixed :
    ∀ t ∈ chineseTechTerms, lowerStr t = t := by decide

theorem extSt_push_inv {st : ExtSt} {e : EntityRec} {k : String}
    (h1 : st.keys = st.entities.map (fun x => lowerStr x.entity_name))
    (h2 : st.keys.Nodup)
    (hk : k = lowerStr e.entity_name)
    (hmem : st.keys.contains k = false) :
    (st.keys ++ [k] = (st.entities ++ [e]).map (fun x => lowerStr x.entity_name)) ∧
    (st.keys ++ [k]).Nodup := by
  constructor
  · simp [h1, hk]
  · have hknot : k ∉ st.keys := by simpa using hmem
    simp [List.nodup_append, h2, hknot]

theorem addTechEntity_inv (text kw : String) (st : ExtSt)
    (h : st.keys = st.entities.map (fun x => lowerStr x.entity_name) ∧ st.keys.Nodup) :
    (addTechEntity text st kw).keys =
      (addTechEntity text st kw).entities.map (fun x => lowerStr x.entity_name) ∧
    (addTechEntity text st kw).keys.Nodup := by
  unfold addTechEntity
  split
  · split
    · exact h
    · rename_i hmem
      exact extSt_push_inv h.1 h.2 rfl (by simpa using hmem)
  · exact h

theorem addChineseEntity_inv (text term : String) (st : ExtSt)
    (hterm : lowerStr term = term)
    (h : st.keys = st.entities.map (fun x => lowerStr x.entity_name) ∧ st.keys.Nodup) :
    (addChineseEntity text st term).keys =
      (addChineseEntity text st term).entities.map (fun x => lowerStr x.entity_name) ∧
    (addChineseEntity text st term).keys.Nodup := by
  unfold addChineseEntity
  split
  · rename_i hc
    have hmem : st.keys.contains term = false := by
      rcases Bool.and_eq_true _ _ |>.mp hc with ⟨_, h2⟩
      simpa using h2
    exact extSt_push_inv h.1 h.2 hterm.symm hmem
  · exact h

theorem addMethodEntity_inv (nm : String) (st : ExtSt)
    (hnm : lowerStr nm = nm)
    (h : st.keys = st.entities.map (fun x => lowerStr x.entity_name) ∧ st.keys.Nodup) :
    (addMethodEntity st nm).keys =
      (addMethodEntity st nm).entities.map (fun x => lowerStr x.entity_name) ∧
    (addMethodEntity st nm).keys.Nodup := by
  unfold addMethodEntity
  split
  · rename_i hc
    have hmem : st.keys.contains nm = false := by
      rcases Bool.and_eq_true _ _ |>.mp hc with ⟨_, h2⟩
      simpa using h2
    exact extSt_push_inv h.1 h.2 hnm.symm hmem
  · exact h

theorem fallbackEntityPass_inv (text : String) :
    (fallbackEntityPass text).keys =
      (fallbackEntityPass text).entities.map (fun x => lowerStr x.entity_name) ∧
    (fallbackEntityPass text).keys.Nodup := by
  unfold fallbackEntityPass
  apply foldl_preserves
    (P := fun st : ExtSt =>
      st.keys = st.entities.map (fun x => lowerStr x.entity_name) ∧ st.keys.Nodup)
  · apply foldl_preserves
      (P := fun st : ExtSt =>
        st.keys = st.entities.map (fun x => lowerStr x.entity_name) ∧ st.keys.Nodup)
    · apply foldl_preserves
        (P := fun st : ExtSt =>
          st.keys = st.entities.map (fun x => lowerStr x.entity_name) ∧ st.keys.Nodup)
      · exact ⟨rfl, List.nodup_nil⟩
      · intro st kw _ h
        exact addTechEntity_inv text kw st h
    · intro st term hterm h
      exact addChineseEntity_inv text term st (chineseTechTerms_lower_fixed term hterm) h
  · intro st nm hnm h
    have hchars : ∀ c ∈ nm.data, isMethodChar c = true :=
      findMethodsGo_chars _ _ _ nm hnm
    exact addMethodEntity_inv nm st (lowerStr_of_methodChars hchars) h

/-- C5 counterexample: the claim fails for the spaCy strategy.  A document
whose named-entity spans repeat (as spaCy produces for a text mentioning the
same name twice, e.g. "Alice met Alice") yields two entities both named
"Alice": the named-entity loop appends with no membership check. -/
theorem spacy_extraction_repeats_a_name :
    ¬ List.Pairwise (fun a b => lowerStr a.entity_name ≠ lowerStr b.entity_name)
      (spacyEntities ⟨[⟨"PERSON", "Alice"⟩, ⟨"PERSON", "Alice"⟩], []⟩ "user") := by
  decide

/-- C5 (amended): within one extraction call, the fallback strategy never
emits two entities sharing a case-insensitive name; the spaCy strategy only
guarantees this for the noun-chunk concepts it checks against `entity_map`,
not for repeated named-entity spans. -/
theorem fallback_names_pairwise_distinct_CI (text role : String)
    (extract_relationships : Bool) :
    List.Pairwise (fun a b => lowerStr a.entity_name ≠ lowerStr b.entity_name)
      (extract_with_fallback text role extract_relationships).1 := by
  have h := fallbackEntityPass_inv text
  have hnd : ((fallbackEntityPass text).entities.map
      (fun x => lowerStr x.entity_name)).Nodup := by
    rw [← h.1]; exact h.2
  have hp := List.pairwise_map.mp hnd
  simpa [extract_with_fallback] using hp


/-! Section: Claim C6: fallback relationship window -/

/-- C6: when relationships are requested and at least two entities were
found, the fallback extractor emits exactly the `mentioned_with` weight-1.0
relationships from entity index `i` to every index `j` with
`i + 1 ≤ j ≤ min (i + 2) (last index)` (stated here with the claim's
inclusive upper bound); and on the text "I love Python and Docker" it yields
exactly the technology entities Python and Docker joined by one such
relationship. -/
theorem fallback_relationship_window :
    (∀ es : List EntityRec, 2 ≤ es.length →
      fallbackRels es =
        (pyRange 0 (es.length - 1)).flatMap (fun i =>
          (pyRange (i + 1) (min (i + 2) (es.length - 1) + 1)).map (fun j =>
            { source_entity_name := (es.getD i ⟨"", "", ""⟩).entity_name,
              target_entity_name := (es.getD j ⟨"", "", ""⟩).entity_name,
              relationship_type := "mentioned_with",
              weight := 1 }))) ∧
    extract_with_fallback "I love Python and Docker" "user" true =
      ([{ entity_type := "technology", entity_name := "Python",
          description := "Technology/Tool: Python" },
        { entity_type := "technology", entity_name := "Docker",
          description := "Technology/Tool: Docker" }],
       [{ source_entity_name := "Python", target_entity_name := "Docker",
          relationship_type := "mentioned_with", weight := 1 }]) := by
  constructor
  · intro es h
    unfold fallbackRels
    have hmin : ∀ i : Nat, min (i + 3) es.length = min (i + 2) (es.length - 1) + 1 := by
      intro i; omega
    simp only [hmin]
  · decide

/-- Witness for C6: the window equation instantiated at a concrete
two-entity list. -/
theorem fallback_relationship_window_witness :
    fallbackRels
        [{ entity_type := "technology", entity_name := "Python", description := "p" },
         { entity_type := "technology", entity_name := "Docker", description := "d" }] =
      (pyRange 0 1).flatMap (fun i =>
        (pyRange (i + 1) (min (i + 2) 1 + 1)).map (fun j =>
          { source_entity_name :=
              (([{ entity_type := "technology", entity_name := "Python",
                   description := "p" },
                 { entity_type := "technology", entity_name := "Docker",
                   description := "d" }] : List EntityRec).getD i
                ⟨"", "", ""⟩).entity_name,
            target_entity_name :=
              (([{ entity_type := "technology", entity_name := "Python",
                   description := "p" },
                 { entity_type := "technology", entity_name := "Docker",
                   description := "d" }] : List EntityRec).getD j
                ⟨"", "", ""⟩).entity_name,
            relationship_type := "mentioned_with",
            weight := 1 })) :=
  fallback_relationship_window.1
    [{ entity_type := "technology", entity_name := "Python", description := "p" },
     { entity_type := "technology", entity_name := "Docker", description := "d" }]
    (by decide)

/-! Section: Claim C4: retrieval threshold, limit, and over-fetch -/

theorem collectLoop_spec (thr : ℚ) (limit : Nat) :
    ∀ (l acc : List (CRow × ℚ)), ∃ s, collectLoop thr limit l acc = acc ++ s ∧
      s.Sublist l ∧ ∀ p ∈ s, thr ≤ p.2 := by
  intro l
  induction l with
  | nil => intro acc; exact ⟨[], by simp [collectLoop], by simp, by simp⟩
  | cons r rest ih =>
    intro acc
    by_cases hq : thr ≤ r.2
    · by_cases hl : limit ≤ acc.length + 1
      · refine ⟨[r], by simp [collectLoop, hq, hl], ?_, ?_⟩
        · exact List.singleton_sublist.mpr (List.mem_cons_self r rest)
        · intro p hp
          simp only [List.mem_singleton] at hp
          exact hp ▸ hq
      · obtain ⟨s, hs1, hs2, hs3⟩ := ih (acc ++ [r])
        refine ⟨r :: s, ?_, hs2.cons₂ r, ?_⟩
        · simp [collectLoop, hq, hl, hs1]
        · intro p hp
          rcases List.mem_cons.mp hp with h | h
          · exact h ▸ hq
          · exact hs3 p h
    · obtain ⟨s, hs1, hs2, hs3⟩ := ih acc
      exact ⟨s, by simp [collectLoop, hq, hs1], hs2.cons r, hs3⟩

theorem collectLoop_length (thr : ℚ) (limit : Nat) :
    ∀ (l acc : List (CRow × ℚ)), acc.length < limit →
      (collectLoop thr limit l acc).length ≤ limit := by
  intro l
  induction l with
  | nil =>
    intro acc h
    simpa [collectLoop] using Nat.le_of_lt h
  | cons r rest ih =>
    intro acc h
    by_cases hq : thr ≤ r.2
    · by_cases hl : limit ≤ acc.length + 1
      · have e : collectLoop thr limit (r :: rest) acc = acc ++ [r] := by
          simp [collectLoop, hq, hl]
        rw [e]
        simp only [List.length_append, List.length_singleton]
        omega
      · have e : collectLoop thr limit (r :: rest) acc =
            collectLoop thr limit rest (acc ++ [r]) := by
          simp [collectLoop, hq, hl]
        rw [e]
        exact ih (acc ++ [r]) (by simp only [List.length_append]; simpa using hl)
    · have e : collectLoop thr limit (r :: rest) acc =
          collectLoop thr limit rest acc := by
        simp [collectLoop, hq]
      rw [e]
      exact ih acc h

/-- C4: for every row set, filter predicate, per-row similarity operator,
limit and threshold, `search_conversations` draws its output exclusively
from the `2 × limit` candidates fetched in similarity-descending order
(the output is a sublist of `fetchCandidates`, whose length is capped at
`limit * 2` by construction), never returns a row whose similarity is below
the threshold, and never returns more than `limit` rows. -/
theorem search_conversations_threshold_and_limit
    (rows : List CRow) (pred : CRow → Bool) (sim : CRow → ℚ)
    (limit : Nat) (threshold : ℚ) :
    (∀ p ∈ search_conversations rows pred sim limit threshold, threshold ≤ p.2) ∧
    (search_conversations rows pred sim limit threshold).length ≤ limit ∧
    (search_conversations rows pred sim limit threshold).Sublist
      (fetchCandidates rows pred sim limit) := by
  obtain ⟨s, hs1, hs2, hs3⟩ :=
    collectLoop_spec threshold limit (fetchCandidates rows pred sim limit) []
  have hres : search_conversations rows pred sim limit threshold = s := by
    simpa [search_conversations] using hs1
  refine ⟨?_, ?_, ?_⟩
  · intro p hp
    exact hs3 p (by rwa [hres] at hp)
  · rcases Nat.eq_zero_or_pos limit with h0 | h0
    · have hcand : fetchCandidates rows pred sim limit = [] := by
        simp [fetchCandidates, h0]
      have hsnil : s = [] := List.sublist_nil.mp (hcand ▸ hs2)
      rw [hres, hsnil]
      simp
    · rw [show search_conversations rows pred sim limit threshold =
        collectLoop threshold limit (fetchCandidates rows pred sim limit) [] from rfl]
      exact collectLoop_length threshold limit _ [] (by simpa using h0)
  · rw [hres]; exact hs2

/-! Section: Claim C7: zero-vector degradation -/

theorem isZeroVec_normSq {v : List ℚ} (hv : isZeroVec v = true) : normSq v = 0 := by
  induction v with
  | nil => simp [normSq]
  | cons x xs ih =>
    simp only [isZeroVec, List.all_cons, Bool.and_eq_true, decide_eq_true_eq] at hv
    have h2 : normSq xs = 0 := ih hv.2
    have hc : normSq (x :: xs) = x * x + normSq xs := by simp [normSq]
    rw [hc, hv.1, h2]
    ring

/-- C7: `get_embedding` returns the zero vector of dimension `D` — not an
error — for blank input and for a raising encoder, and `cosine_similarity`
returns 0.0 whenever either argument is an all-zero vector. -/
theorem embedding_zero_degradation :
    (∀ (D : Nat) (encode : String → Option (List ℚ)) (text : String),
      pyIsBlank text = true ∨ encode text = none →
      get_embedding D encode text = List.replicate D 0) ∧
    (∀ v1 v2 : List ℚ, isZeroVec v1 = true ∨ isZeroVec v2 = true →
      cosine_similarity v1 v2 = 0) := by
  constructor
  · intro D encode text h
    rcases h with h | h
    · simp [get_embedding, h]
    · by_cases hb : pyIsBlank text
      · simp [get_embedding, hb]
      · simp [get_embedding, hb, h]
  · intro v1 v2 h
    have hcond : normSq v1 = 0 ∨ normSq v2 = 0 := by
      rcases h with h | h
      · exact Or.inl (isZeroVec_normSq h)
      · exact Or.inr (isZeroVec_normSq h)
    simp [cosine_similarity, hcond]

/-- Witness for C7 at concrete inputs: a whitespace-only text with a
non-degenerate encoder, and a zero first vector. -/
theorem embedding_zero_degradation_witness :
    get_embedding 3 (fun _ => some [5, 5, 5]) "  " = List.replicate 3 0 ∧
    cosine_similarity [0, 0] [1, 2] = 0 :=
  ⟨embedding_zero_degradation.1 3 (fun _ => some [5, 5, 5]) "  " (Or.inl (by decide)),
   embedding_zero_degradation.2 [0, 0] [1, 2] (Or.inl (by decide))⟩

/-! Section: Claim C8 and Claim C10: ingestion -/

/-- C8: when extraction or the entity/relationship write phase raises, the
already-committed conversation row is kept, no entity or relationship row is
persisted, and the tool reports partial success: `success = true`, the
conversation id, zero entities and relationships, and the error noted. -/
theorem save_conversation_soft_failure (db : DB) (inp : ConvInput)
    (emb : String → List ℚ) (e : String) :
    (save_conversation db inp emb (.error e)).1.conversations =
      db.conversations ++
        [{ id := db.convSeq, user_id := inp.user_id, session_id := inp.session_id,
           role := inp.role, content := inp.content, platform := inp.platform,
           embedding := emb inp.content }] ∧
    (save_conversation db inp emb (.error e)).1.entities = db.entities ∧
    (save_conversation db inp emb (.error e)).1.relationships = db.relationships ∧
    (save_conversation db inp emb (.error e)).2 =
      { success := true, conversation_id := db.convSeq,
        message := "Conversation saved successfully (entity extraction failed)",
        entities_extracted := 0, relationships_extracted := 0,
        extraction_error := some e } :=
  ⟨rfl, rfl, rfl, rfl⟩

theorem lookupLast_mem_values {m : List (String × Nat)} {k : String} {v : Nat}
    (h : lookupLast m k = some v) : v ∈ m.map (·.2) := by
  unfold lookupLast at h
  match hf : m.reverse.find? (fun p => p.1 = k) with
  | none => rw [hf] at h; simp at h
  | some p =>
    rw [hf] at h
    have hp : p ∈ m.reverse := List.mem_of_find?_eq_some hf
    rw [List.mem_reverse] at hp
    refine List.mem_map.mpr ⟨p, hp, ?_⟩
    simpa using h

theorem entityWrite_fold (emb : String → List ℚ) (cid : Nat) :
    ∀ (ents : List EntityRec) (d0 : DB) (m0 : List (String × Nat)),
      (ents.foldl (entityWriteStep emb cid) (d0, m0)).1.conversations =
        d0.conversations ∧
      (ents.foldl (entityWriteStep emb cid) (d0, m0)).1.relationships =
        d0.relationships ∧
      ∃ rows, (ents.foldl (entityWriteStep emb cid) (d0, m0)).1.entities =
          d0.entities ++ rows ∧
        ∀ v ∈ (ents.foldl (entityWriteStep emb cid) (d0, m0)).2.map (·.2),
          v ∈ m0.map (·.2) ∨ v ∈ rows.map (·.id) := by
  intro ents
  induction ents with
  | nil =>
    intro d0 m0
    exact ⟨rfl, rfl, [], (List.append_nil _).symm, fun v hv => Or.inl hv⟩
  | cons ed rest ih =>
    intro d0 m0
    have hstep : entityWriteStep emb cid (d0, m0) ed =
        ({ d0 with
           entities := d0.entities ++
             [{ id := d0.entSeq, conversation_id := cid,
                entity_type := ed.entity_type, entity_name := ed.entity_name,
                description := ed.description, embedding := emb ed.description }]
           entSeq := d0.entSeq + 1 },
         m0 ++ [(ed.entity_name, d0.entSeq)]) := rfl
    obtain ⟨h1, h2, rows, h3, h4⟩ :=
      ih { d0 with
           entities := d0.entities ++
             [{ id := d0.entSeq, conversation_id := cid,
                entity_type := ed.entity_type, entity_name := ed.entity_name,
                description := ed.description, embedding := emb ed.description }]
           entSeq := d0.entSeq + 1 }
        (m0 ++ [(ed.entity_name, d0.entSeq)])
    refine ⟨?_, ?_,
      ⟨{ id := d0.entSeq, conversation_id := cid, entity_type := ed.entity_type,
         entity_name := ed.entity_name, description := ed.description,
         embedding := emb ed.description } :: rows, ?_, ?_⟩⟩
    · rw [List.foldl_cons, hstep, h1]
    · rw [List.foldl_cons, hstep, h2]
    · rw [List.foldl_cons, hstep, h3]
      simp
    · intro v hv
      rw [List.foldl_cons, hstep] at hv
      rcases h4 v hv with h | h
    

      · simp only [List.map_append, List.mem_append, List.map_cons, List.map_nil,
          List.mem_singleton] at h
        rcases h with h | h
        · exact Or.inl h
        · exact Or.inr (by simp [h])
      · exact Or.inr (by simp [h])

theorem relWrite_fold (emap : List (String × Nat)) :
    ∀ (rels : List RelRec) (q0 : DB) (n0 : Nat),
      (rels.foldl (relWriteStep emap) (q0, n0)).1.conversations =
        q0.conversations ∧
      (rels.foldl (relWriteStep emap) (q0, n0)).1.entities = q0.entities ∧
      ∃ suf, (rels.foldl (relWriteStep emap) (q0, n0)).1.relationships =
          q0.relationships ++ suf ∧
        ∀ r ∈ suf, r.source_entity_id ∈ emap.map (·.2) ∧
          r.target_entity_id ∈ emap.map (·.2) := by
  intro rels
  induction rels with
  | nil =>
    intro q0 n0
    exact ⟨rfl, rfl, [], (List.append_nil _).symm, by simp⟩
  | cons rd rest ih =>
    intro q0 n0
    match hs : lookupLast emap rd.source_entity_name,
          ht : lookupLast emap rd.target_entity_name with
    | some sid, some tid =>
      have hstep : relWriteStep emap (q0, n0) rd =
          ({ q0 with relationships := q0.relationships ++
              [{ source_entity_id := sid, target_entity_id := tid,
                 relationship_type := rd.relationship_type,
                 weight := rd.weight }] }, n0 + 1) := by
        simp [relWriteStep, hs, ht]
      obtain ⟨h1, h2, suf, h3, h4⟩ :=
        ih { q0 with relationships := q0.relationships ++
              [{ source_entity_id := sid, target_entity_id := tid,
                 relationship_type := rd.relationship_type,
                 weight := rd.weight }] } (n0 + 1)
      refine ⟨?_, ?_,
        ⟨{ source_entity_id := sid, target_entity_id := tid,
           relationship_type := rd.relationship_type,
           weight := rd.weight } :: suf, ?_, ?_⟩⟩
      · rw [List.foldl_cons, hstep, h1]
      · rw [List.foldl_cons, hstep, h2]
      · rw [List.foldl_cons, hstep, h3]
        simp
      · intro r hr
        rcases List.mem_cons.mp hr with h | h
        · subst h
          exact ⟨lookupLast_mem_values hs, lookupLast_mem_values ht⟩
        · exact h4 r h
    | some sid, none =>
      have hstep : relWriteStep emap (q0, n0) rd = (q0, n0) := by
        simp [relWriteStep, hs, ht]
      obtain ⟨h1, h2, suf, h3, h4⟩ := ih q0 n0
      rw [List.foldl_cons, hstep]
      exact ⟨h1, h2, suf, h3, h4⟩
    | none, some tid =>
      have hstep : relWriteStep emap (q0, n0) rd = (q0, n0) := by
        simp [relWriteStep, hs, ht]
      obtain ⟨h1, h2, suf, h3, h4⟩ := ih q0 n0
      rw [List.foldl_cons, hstep]
      exact ⟨h1, h2, suf, h3, h4⟩
    | none, none =>
      have hstep : relWriteStep emap (q0, n0) rd = (q0, n0) := by
        simp [relWriteStep, hs, ht]
      obtain ⟨h1, h2, suf, h3, h4⟩ := ih q0 n0
      rw [List.foldl_cons, hstep]
      exact ⟨h1, h2, suf, h3, h4⟩

/-- The endpoint guarantee for the entity-then-relationship write phase,
stated over the state the phase starts from. -/
theorem ingest_phase_endpoints (db1 : DB) (emb : String → List ℚ) (cid : Nat)
    (ents : List EntityRec) (rels : List RelRec) :
    ∃ suf,
      (rels.foldl (relWriteStep (ents.foldl (entityWriteStep emb cid) (db1, [])).2)
        ((ents.foldl (entityWriteStep emb cid) (db1, [])).1, 0)).1.relationships =
        db1.relationships ++ suf ∧
      ∀ r ∈ suf,
        r.source_entity_id ∈
          (((rels.foldl (relWriteStep (ents.foldl (entityWriteStep emb cid) (db1, [])).2)
            ((ents.foldl (entityWriteStep emb cid) (db1, [])).1, 0)).1.entities.drop
            db1.entities.length).map (·.id)) ∧
        r.target_entity_id ∈
          (((rels.foldl (relWriteStep (ents.foldl (entityWriteStep emb cid) (db1, [])).2)
            ((ents.foldl (entityWriteStep emb cid) (db1, [])).1, 0)).1.entities.drop
            db1.entities.length).map (·.id)) := by
  obtain ⟨he1, he2, rows, he3, he4⟩ := entityWrite_fold emb cid ents db1 []
  obtain ⟨hr1, hr2, suf, hr3, hr4⟩ :=
    relWrite_fold (ents.foldl (entityWriteStep emb cid) (db1, [])).2 rels
      (ents.foldl (entityWriteStep emb cid) (db1, [])).1 0
  refine ⟨suf, ?_, ?_⟩
  · rw [hr3, he2]
  · intro r hr
    have hdrop : ((rels.foldl (relWriteStep (ents.foldl (entityWriteStep emb cid) (db1, [])).2)
        ((ents.foldl (entityWriteStep emb cid) (db1, [])).1, 0)).1.entities.drop
        db1.entities.length) = rows := by
      rw [hr2, he3]
      exact List.drop_left db1.entities rows
    rw [hdrop]
    obtain ⟨hsrc, htgt⟩ := hr4 r hr
    constructor
    · rcases he4 _ hsrc with h | h
      · simp at h
      · exact h
    · rcases he4 _ htgt with h | h
      · simp at h
      · exact h

/-- C10: every relationship row persisted by a `save_conversation` call with
a successful extraction outcome has both its endpoint entity ids among the
entity rows written by that same call; extracted relationships whose source
or target name was not saved are silently dropped. -/
theorem save_conversation_relationship_endpoints (db : DB) (inp : ConvInput)
    (emb : String → List ℚ) (ents : List EntityRec) (rels : List RelRec) :
    ∃ suf,
      (save_conversation db inp emb (.ok (ents, rels))).1.relationships =
        db.relationships ++ suf ∧
      ∀ r ∈ suf,
        r.source_entity_id ∈
          (((save_conversation db inp emb (.ok (ents, rels))).1.entities.drop
            db.entities.length).map (·.id)) ∧
        r.target_entity_id ∈
          (((save_conversation db inp emb (.ok (ents, rels))).1.entities.drop
            db.entities.length).map (·.id)) :=
  ingest_phase_endpoints
    { db with
      conversations := db.conversations ++
        [{ id := db.convSeq, user_id := inp.user_id,
           session_id := inp.session_id, role := inp.role,
           content := inp.content, platform := inp.platform,
           embedding := emb inp.content }]
      convSeq := db.convSeq + 1 }
    emb db.convSeq ents rels

/-- Witness for C10 at a concrete call: one extracted relationship between
two saved entities, plus one dropped relationship naming an unsaved
entity. -/
theorem save_conversation_relationship_endpoints_witness :
    ∃ suf,
      (save_conversation ⟨[], [], [], 5, 9⟩ ⟨"u", "s", "user", "hi", "p"⟩
        (fun _ => [1])
        (.ok ([⟨"technology", "Python", "d1"⟩, ⟨"technology", "Docker", "d2"⟩],
              [⟨"Python", "Docker", "mentioned_with", 1⟩,
               ⟨"Python", "Java", "mentioned_with", 1⟩]))).1.relationships =
        ([] : List RelRow) ++ suf ∧
      ∀ r ∈ suf,
        r.source_entity_id ∈
          (((save_conversation ⟨[], [], [], 5, 9⟩ ⟨"u", "s", "user", "hi", "p"⟩
            (fun _ => [1])
            (.ok ([⟨"technology", "Python", "d1"⟩, ⟨"technology", "Docker", "d2"⟩],
                  [⟨"Python", "Docker", "mentioned_with", 1⟩,
                   ⟨"Python", "Java", "mentioned_with", 1⟩]))).1.entities.drop
            ([] : List EntityRow).length).map (·.id)) ∧
        r.target_entity_id ∈
          (((save_conversation ⟨[], [], [], 5, 9⟩ ⟨"u", "s", "user", "hi", "p"⟩
            (fun _ => [1])
            (.ok ([⟨"technology", "Python", "d1"⟩, ⟨"technology", "Docker", "d2"⟩],
                  [⟨"Python", "Docker", "mentioned_with", 1⟩,
                   ⟨"Python", "Java", "mentioned_with", 1⟩]))).1.entities.drop
            ([] : List EntityRow).length).map (·.id)) :=
  save_conversation_relationship_endpoints ⟨[], [], [], 5, 9⟩
    ⟨"u", "s", "user", "hi", "p"⟩ (fun _ => [1])
    [⟨"technology", "Python", "d1"⟩, ⟨"technology", "Docker", "d2"⟩]
    [⟨"Python", "Docker", "mentioned_with", 1⟩,
     ⟨"Python", "Java", "mentioned_with", 1⟩]

/-! Section: Claim C9: topic cluster size bound and disjointness -/

theorem insertLE_perm {α : Type} (le : α → α → Bool) (x : α) (l : List α) :
    (insertLE le x l).Perm (x :: l) := by
  induction l with
  | nil => simp [insertLE]
  | cons y ys ih =>
    by_cases h : le y x
    · simp only [insertLE, h, if_pos]
      exact (ih.cons y).trans (List.Perm.swap x y ys)
    · simp [insertLE, h]

theorem sortLE_perm {α : Type} (le : α → α → Bool) (l : List α) :
    (sortLE le l).Perm l := by
  suffices h : ∀ (l acc : List α),
      (l.foldl (fun acc x => insertLE le x acc) acc).Perm (acc ++ l) by
    simpa using h l []
  intro l
  induction l with
  | nil => intro acc; simp
  | cons x xs ih =>
    intro acc
    rw [List.foldl_cons]
    refine (ih (insertLE le x acc)).trans ?_
    refine (List.Perm.append_right xs (insertLE_perm le x acc)).trans ?_
    exact List.perm_middle.symm.trans (by simp)

theorem firstDedup_nodup {α : Type} [DecidableEq α] (l : List α) :
    (firstDedup l).Nodup := by
  suffices h : ∀ (l acc : List α), acc.Nodup →
      (l.foldl (fun acc x => if acc.contains x then acc else acc ++ [x]) acc).Nodup from
    h l [] List.nodup_nil
  intro l
  induction l with
  | nil => intro acc h; simpa using h
  | cons x xs ih =>
    intro acc h
    rw [List.foldl_cons]
    by_cases hc : x ∈ acc
    · have e : (if acc.contains x then acc else acc ++ [x]) = acc := by simp [hc]
      rw [e]
      exact ih acc h
    · have e : (if acc.contains x then acc else acc ++ [x]) = acc ++ [x] := by
        simp [hc]
      rw [e]
      refine ih (acc ++ [x]) (h.append (List.nodup_singleton x) ?_)
      intro b hb hbx
      rw [List.mem_singleton] at hbx
      exact hc (hbx ▸ hb)

/-- C9: `get_topic_clusters` returns the empty list when the node count is
below `min_cluster_size`, never returns a cluster whose size is below
`min_cluster_size`, and the returned clusters are pairwise disjoint in
entity membership. -/
theorem topic_clusters_size_and_disjoint (g : Gph) (min_cluster_size : Nat)
    (comm : Nat → Nat) :
    (g.nodes.length < min_cluster_size →
      get_topic_clusters g min_cluster_size comm = []) ∧
    (∀ cl ∈ get_topic_clusters g min_cluster_size comm,
      min_cluster_size ≤ cl.size ∧ cl.size = cl.entities.length) ∧
    List.Pairwise
      (fun c1 c2 => ∀ i ∈ c1.entities.map (·.entity_id),
        i ∉ c2.entities.map (·.entity_id))
      (get_topic_clusters g min_cluster_size comm) := by
  by_cases hlt : g.nodes.length < min_cluster_size
  · have hres : get_topic_clusters g min_cluster_size comm = [] := by
      unfold get_topic_clusters
      rw [if_pos hlt]
    refine ⟨fun _ => hres, ?_, ?_⟩
    · intro cl hcl
      rw [hres] at hcl
      exact absurd hcl (List.not_mem_nil cl)
    · rw [hres]
      exact List.Pairwise.nil
  · have hres : get_topic_clusters g min_cluster_size comm =
        sortLE (fun a b => b.size ≤ a.size)
          (((((firstDedup (g.nodes.map (fun nd => comm nd.id))).map
              (fun c => (c, g.nodes.filter (fun nd => comm nd.id = c)))).filter
            (fun p => min_cluster_size ≤ p.2.length)).map (fun p =>
              { cluster_id := p.1
                cluster_label := mostCommonType (p.2.map (·.etype))
                size := p.2.length
                entities := p.2.map (fun nd => ⟨nd.id, nd.name, nd.etype⟩) }))) := by
      unfold get_topic_clusters
      rw [if_neg hlt]
    have hperm := sortLE_perm (fun a b : Cluster => b.size ≤ a.size)
      (((((firstDedup (g.nodes.map (fun nd => comm nd.id))).map
          (fun c => (c, g.nodes.filter (fun nd => comm nd.id = c)))).filter
        (fun p => min_cluster_size ≤ p.2.length)).map (fun p =>
          { cluster_id := p.1
            cluster_label := mostCommonType (p.2.map (·.etype))
            size := p.2.length
            entities := p.2.map (fun nd => ⟨nd.id, nd.name, nd.etype⟩) })))
    refine ⟨fun h => absurd h hlt, ?_, ?_⟩
    · intro cl hcl
      rw [hres] at hcl
      have hcl2 := hperm.mem_iff.mp hcl
      obtain ⟨p, hp, rfl⟩ := List.mem_map.mp hcl2
      have hsize : min_cluster_size ≤ p.2.length := by
        simpa using List.of_mem_filter hp
      exact ⟨hsize, by simp⟩
    · rw [hres]
      have hsym : ∀ (c1 c2 : Cluster),
          (∀ i ∈ c1.entities.map (·.entity_id), i ∉ c2.entities.map (·.entity_id)) →
          (∀ i ∈ c2.entities.map (·.entity_id), i ∉ c1.entities.map (·.entity_id)) :=
        fun _ _ h i hi2 hi1 => h i hi1 hi2
      refine (List.Perm.pairwise_iff
        (R := fun c1 c2 : Cluster => ∀ i ∈ c1.entities.map (·.entity_id),
          i ∉ c2.entities.map (·.entity_id))
        (fun {a b} h => hsym a b h) hperm).mpr ?_
      refine List.pairwise_map.mpr ?_
      have hgrp : List.Pairwise
          (fun p q : Nat × List GNode =>
            ∀ i ∈ p.2.map (·.id), i ∉ q.2.map (·.id))
          (((firstDedup (g.nodes.map (fun nd => comm nd.id))).map
            (fun c => (c, g.nodes.filter (fun nd => comm nd.id = c)))).filter
            (fun p => min_cluster_size ≤ p.2.length)) := by
        refine List.Pairwise.filter _ ?_
        refine List.pairwise_map.mpr ?_
        refine (firstDedup_nodup (g.nodes.map (fun nd => comm nd.id))).imp ?_
        intro a b hab i hia hib
        obtain ⟨nd, hnd, hndid⟩ := List.mem_map.mp hia
        obtain ⟨nd', hnd', hndid'⟩ := List.mem_map.mp hib
        have ha : comm nd.id = a := by simpa using (List.of_mem_filter hnd)
        have hb : comm nd'.id = b := by simpa using (List.of_mem_filter hnd')
        exact hab (by rw [← ha, ← hb, hndid, hndid'])
      refine hgrp.imp ?_
      intro p q hpq i hip hiq
      have hip' : i ∈ p.2.map (·.id) := by
        simpa [List.map_map, Function.comp] using hip
      have hiq' : i ∈ q.2.map (·.id) := by
        simpa [List.map_map, Function.comp] using hiq
      exact hpq i hip' hiq'

/-- Witness for C9: the below-minimum branch at a concrete empty graph. -/
theorem topic_clusters_size_and_disjoint_witness :
    get_topic_clusters (build_user_graph [] []) 3 (fun n => n) = [] :=
  (topic_clusters_size_and_disjoint (build_user_graph [] []) 3 (fun n => n)).1
    (by decide)

/-- C3: `get_entity_importance` returns the empty list on the empty graph,
but on a non-empty graph whose nodes are all isolated it raises
`ZeroDivisionError` (modelled as `none`): all degrees are 0, the guard
`degree_centrality.values() or [1]` does not fire because a non-empty
all-zero values list is truthy, so `max_degree = 0` and the normalization
divides zero by zero. -/
theorem entity_importance_isolated_graph_divides_by_zero :
    get_entity_importance (build_user_graph [] []) none 20 = some [] ∧
    get_entity_importance
      (build_user_graph [⟨1, 1, "technology", "A", "d", []⟩] []) none 20 = none := by
  constructor
  · rfl
  · rw [show build_user_graph [⟨1, 1, "technology", "A", "d", []⟩] [] =
        ⟨[⟨1, "A", "technology", "d"⟩], []⟩ from rfl]
    simp [get_entity_importance, degreeW, maxQ]

end MemHub
